import Mathlib

/-!
# Verification of `program_10.py` (streamflow descriptive statistics)

Shallow embedding of the analytical core of `src/program_10.py`:
the loader's missing-value accounting (`ReadData`), date-range clipping
(`ClipData`), the four metric kernels (`CalcTqmean`, `CalcRBindex`,
`Calc7Q`, `CalcExceed3TimesMedian`), and the annual (water-year) and
monthly resampling/aggregation (`GetAnnualStatistics`,
`GetMonthlyStatistics`).

Modelling conventions:
* A discharge observation is `Option ℚ`: `none` models pandas `NaN`
  (missing), `some q` a finite value.  Rationals replace IEEE floats;
  every arithmetic step of the source is exact, so no claim here turns
  on rounding.
* pandas reductions (`sum`, `mean`, `max`, `median`, `min`) skip NaN
  by default; the embedding filters the `none`s first, returning `none`
  (pandas: NaN) when no value remains — except `sum`, which returns `0`
  on an all-missing input exactly as pandas does.
* A float division whose result is not finite (`0/0` giving NaN, `x/0`
  giving ±inf) is modelled as `none`; wherever a claim depends on the
  distinction the accompanying theorem additionally pins down the
  numerator, so the conflation is never load-bearing.
* Comparisons against NaN (`Qvalues > Qvalues.mean()` when the mean is
  NaN) are `False` elementwise, as in numpy.
-/

/-- A calendar date, ordered lexicographically by (year, month, day).
Models entries of the `Date` index of the DataFrame. -/
structure Date where
  year : Int
  month : Nat
  day : Nat
deriving DecidableEq, Repr

namespace Date

/-- Lexicographic `≤` on dates, the order of a pandas `DatetimeIndex`. -/
def le (a b : Date) : Bool :=
  a.year < b.year ∨ (a.year = b.year ∧
    (a.month < b.month ∨ (a.month = b.month ∧ a.day ≤ b.day)))

/-- Days in each month (leap years aside: no claim touches February). -/
def daysInMonth (m : Nat) : Nat :=
  if m = 2 then 29
  else if m = 4 ∨ m = 6 ∨ m = 9 ∨ m = 11 then 30
  else 31

/-- A date that can appear on a parsed `DatetimeIndex`. -/
def Valid (d : Date) : Prop :=
  1 ≤ d.month ∧ d.month ≤ 12 ∧ 1 ≤ d.day ∧ d.day ≤ daysInMonth d.month

instance : DecidablePred Valid := fun d => by unfold Valid; infer_instance

end Date

/-- One row of the loaded DataFrame after `set_index('Date')`:
columns `agency_cd`, `site_no`, `Discharge`, `Quality`, indexed by date.
`Discharge` is `none` when missing (NaN). -/
structure Row where
  date : Date
  agency_cd : String
  site_no : Nat
  discharge : Option ℚ
  quality : String
deriving DecidableEq, Repr

/-! ## NaN-aware primitives (pandas reduction semantics) -/

/-- The non-missing values of a series, in order (what pandas reductions
see with `skipna=True`). -/
def validVals (Q : List (Option ℚ)) : List ℚ := Q.filterMap id

/-- `Series.sum()`: NaN-skipping; the empty (or all-NaN) sum is `0.0`. -/
def psum (Q : List (Option ℚ)) : ℚ := (validVals Q).sum

/-- `Series.mean()`: NaN-skipping; NaN when no valid value remains. -/
def pmean (Q : List (Option ℚ)) : Option ℚ :=
  if (validVals Q).length = 0 then none
  else some ((validVals Q).sum / (validVals Q).length)

/-- `Series.max()`: NaN-skipping; NaN when no valid value remains. -/
def pmax (Q : List (Option ℚ)) : Option ℚ :=
  match validVals Q with
  | [] => none
  | x :: xs => some (xs.foldl max x)

/-- `Series.min()`: NaN-skipping; NaN when no valid value remains. -/
def pmin (Q : List (Option ℚ)) : Option ℚ :=
  match validVals Q with
  | [] => none
  | x :: xs => some (xs.foldl min x)

/-- `Series.median()`: NaN-skipping; middle of the sorted valid values,
mean of the two middles when their count is even, NaN when none remain. -/
def pmedian (Q : List (Option ℚ)) : Option ℚ :=
  let v := (validVals Q).mergeSort (· ≤ ·)
  let n := v.length
  if n = 0 then none
  else if n % 2 = 1 then some (v.getD (n / 2) 0)
  else some ((v.getD (n / 2 - 1) 0 + v.getD (n / 2) 0) / 2)

/-- `Series.var()` (ddof = 1, pandas default): NaN-skipping sample
variance; NaN when fewer than two valid values remain. -/
def pvar (Q : List (Option ℚ)) : Option ℚ :=
  let v := validVals Q
  let n := v.length
  if n < 2 then none
  else
    let μ : ℚ := v.sum / n
    some ((v.map (fun x => (x - μ) ^ 2)).sum / (n - 1))

/-- `Series.std()`: square root of the sample variance. -/
noncomputable def pstd (Q : List (Option ℚ)) : Option ℝ :=
  (pvar Q).map (fun (v : ℚ) => Real.sqrt (v : ℝ))

/-- `Series.skew()` (pandas `nanskew`): NaN when fewer than three valid
values, `0` when the second central moment vanishes, otherwise the
adjusted Fisher-Pearson coefficient
`n·√(n-1)/(n-2) · m₃ / m₂^{3/2}`. -/
noncomputable def pskew (Q : List (Option ℚ)) : Option ℝ :=
  let v := validVals Q
  let n := v.length
  if n < 3 then none
  else
    let μ : ℚ := v.sum / n
    let m2 : ℚ := (v.map (fun x => (x - μ) ^ 2)).sum
    let m3 : ℚ := (v.map (fun x => (x - μ) ^ 3)).sum
    if m2 = 0 then some 0
    else some ((n * Real.sqrt (n - 1) / (n - 2)) *
      ((m3 : ℝ) / Real.sqrt ((m2 : ℝ) ^ 3)))

/-- Elementwise `a - b` with NaN propagation (`NaN` if either side is). -/
def osub (a b : Option ℚ) : Option ℚ :=
  match a, b with
  | some x, some y => some (x - y)
  | _, _ => none

/-- `Series.diff()`: first entry NaN, then `Q[i] - Q[i-1]` with NaN
propagation. -/
def pdiff (Q : List (Option ℚ)) : List (Option ℚ) :=
  match Q with
  | [] => []
  | _ :: tail => none :: List.zipWith osub tail Q

/-! ## The metric kernels -/

/-- `CalcTqmean` (program_10.py:67-80): count of values strictly above
the NaN-skipping mean, divided by the *full* length (NaNs included in
the denominator).  A comparison against a NaN mean is `False`; the
`0/0` arising on an empty series is NaN. -/
def CalcTqmean (Qvalues : List (Option ℚ)) : Option ℚ :=
  let m := pmean Qvalues
  let vals_gt_mean :=
    (Qvalues.filter (fun x =>
      match x, m with
      | some a, some b => decide (b < a)
      | _, _ => false)).length
  if Qvalues.length = 0 then none
  else some ((vals_gt_mean : ℚ) / (Qvalues.length : ℚ))

/-- `CalcRBindex` (program_10.py:82-102): pathlength
`Qvalues.diff().abs().sum()` over total discharge `Qvalues.sum()`.
A zero denominator makes the float quotient non-finite (NaN or ±inf),
modelled as `none`. -/
def CalcRBindex (Qvalues : List (Option ℚ)) : Option ℚ :=
  let pathlength := psum ((pdiff Qvalues).map (Option.map (|·|)))
  let discharge_tot := psum Qvalues
  if discharge_tot = 0 then none
  else some (pathlength / discharge_tot)

/-- `Qvalues.rolling(7).mean()`: entry `i` is the mean of window
`Q[i-6..i]` when `i ≥ 6` and all seven window entries are valid
(`min_periods` defaults to the window size), NaN otherwise. -/
def rollingMean7 (Q : List (Option ℚ)) : List (Option ℚ) :=
  (List.range Q.length).map (fun i =>
    if 6 ≤ i then
      let w := ((Q.drop (i - 6)).take 7).filterMap id
      if w.length = 7 then some (w.sum / 7) else none
    else none)

/-- `Calc7Q` (program_10.py:104-115): minimum of the 7-day rolling
mean (`min` skips NaN; all-NaN gives NaN). -/
def Calc7Q (Qvalues : List (Option ℚ)) : Option ℚ :=
  pmin (rollingMean7 Qvalues)

/-- `CalcExceed3TimesMedian` (program_10.py:117-129): count of values
strictly above three times the NaN-skipping median.  The result of the
boolean `.sum()` is an integer count, never NaN. -/
def CalcExceed3TimesMedian (Qvalues : List (Option ℚ)) : Nat :=
  let m := pmedian Qvalues
  (Qvalues.filter (fun x =>
    match x, m with
    | some a, some b => decide (3 * b < a)
    | _, _ => false)).length

/-! ## Loader and Clipper -/

/-- Missing discharge entries of a frame (`df["Discharge"].isna().sum()`). -/
def missingCount (df : List Row) : Nat :=
  (df.filter (fun r => r.discharge.isNone)).length

/-- `ReadData` (program_10.py:22-52), from the point where the file is
parsed: the input is the parsed frame (sentinel tokens already NaN, raw
negative readings still present).  The missing-value count is taken
*first* (line 45); only then are negative discharges overwritten with
NaN (line 50). -/
def ReadData (parsed : List Row) : List Row × Nat :=
  let MissingValues := missingCount parsed
  let DataDF := parsed.map (fun r =>
    { r with discharge :=
        match r.discharge with
        | some v => if v < 0 then none else some v
        | none => none })
  (DataDF, MissingValues)

/-- `ClipData` (program_10.py:54-65): inclusive `.loc[start:end]` slice
on the date index, plus the missing count recomputed on the slice.
A pure function of its input — the argument frame is not mutated. -/
def ClipData (DataDF : List Row) (startDate endDate : Date) :
    List Row × Nat :=
  let clipped := DataDF.filter
    (fun r => Date.le startDate r.date && Date.le r.date endDate)
  (clipped, missingCount clipped)

/-! ## Aggregator: annual (water-year) and monthly resampling

`GetAnnualStatistics` resamples with pandas frequency `'A-SEP'`: bins
are years ending September 30, labelled by the bin's right edge, and
the bin index runs contiguously from the bin of the earliest date to
the bin of the latest date (empty bins included). -/

/-- The water year a date falls in: October through December belong to
the year ending the *following* September 30 (USGS convention, realised
by pandas `'A-SEP'` bins). -/
def waterYear (d : Date) : Int :=
  if 10 ≤ d.month then d.year + 1 else d.year

/-- Calendar-month bucket key of pandas `resample('MS')`. -/
def monthKey (d : Date) : Int × Nat := (d.year, d.month)

/-- Smallest water year among the frame's dates (fold over the index). -/
def wyMin (dates : List Date) (d0 : Date) : Int :=
  (dates.map waterYear).foldl min (waterYear d0)

/-- Largest water year among the frame's dates (fold over the index). -/
def wyMax (dates : List Date) (d0 : Date) : Int :=
  (dates.map waterYear).foldl max (waterYear d0)

/-- The index of `DataDF.resample('A-SEP').mean()`: one label per water
year from the earliest to the latest water year of the data, each label
the bin's right edge, September 30. -/
def annualIndex (dates : List Date) : List Date :=
  match dates with
  | [] => []
  | d0 :: rest =>
    (List.range (wyMax rest d0 - wyMin rest d0 + 1).toNat).map
      (fun (k : Nat) => ⟨wyMin rest d0 + (k : Int), 9, 30⟩)

/-- One row of the `GetAnnualStatistics` output table
(program_10.py:131-162): per-bucket metrics of the `Discharge` column,
plus the minimum `site_no` seen in the bucket. -/
structure AnnualRow where
  site_no : Option Nat
  meanFlow : Option ℚ
  peakFlow : Option ℚ
  medianFlow : Option ℚ
  coeffVar : Option ℝ
  skew : Option ℝ
  tqmean : Option ℚ
  rbIndex : Option ℚ
  sevenQ : Option ℚ
  exceed3xMedian : Nat

/-- `site_no` column of a bucket: `WYData['site_no'].min()`. -/
def siteMin (rows : List Row) : Option Nat :=
  match rows.map Row.site_no with
  | [] => none
  | x :: xs => some (xs.foldl min x)

/-- `Coeff Var` column: `std / mean * 100`; NaN when either factor is
NaN, non-finite (modelled `none`) when the mean is zero. -/
noncomputable def coeffVarCol (Q : List (Option ℚ)) : Option ℝ :=
  match pstd Q, pmean Q with
  | some s, some m => if m = 0 then none else some (s / (m : ℝ) * 100)
  | _, _ => none

/-- The metrics of one water-year (or any) bucket, assembled exactly as
the column assignments of program_10.py:151-160. -/
noncomputable def annualRowOf (rows : List Row) : AnnualRow :=
  let Q := rows.map Row.discharge
  { site_no := siteMin rows
    meanFlow := pmean Q
    peakFlow := pmax Q
    medianFlow := pmedian Q
    coeffVar := coeffVarCol Q
    skew := pskew Q
    tqmean := CalcTqmean Q
    rbIndex := CalcRBindex Q
    sevenQ := Calc7Q Q
    exceed3xMedian := CalcExceed3TimesMedian Q }

/-- `GetAnnualStatistics` (program_10.py:131-162): one labelled row per
bin of the `'A-SEP'` resample index; the bucket of label
`⟨wy, 9, 30⟩` holds the rows whose date's water year is `wy`. -/
noncomputable def GetAnnualStatistics (DataDF : List Row) :
    List (Date × AnnualRow) :=
  (annualIndex (DataDF.map Row.date)).map
    (fun lbl =>
      (lbl, annualRowOf (DataDF.filter (fun r => waterYear r.date = lbl.year))))

/-- The monthly `R-B Index` column route
(program_10.py:186): `MoData.apply({'Discharge': lambda x:
CalcRBindex(x)})` — per month-bucket, the dict aggregation selects the
bucket's `Discharge` sub-series and applies `CalcRBindex` to it. -/
def monthlyRBIndexCol (DataDF : List Row) (k : Int × Nat) : Option ℚ :=
  let bucket := DataDF.filter (fun r => monthKey r.date = k)
  CalcRBindex (bucket.map Row.discharge)

/-- The spec's uniform route for any bucket, as worded in §9 of the
spec: "apply CalcRBindex to the bucket's discharge values" — the
per-bucket application used by the annual route
(program_10.py:158, `WYData['Discharge'].apply(lambda x: CalcRBindex(x))`)
transposed to a month bucket: first project the bucket's `Discharge`
column, then apply the kernel. -/
def specRBPerMonthBucket (DataDF : List Row) (k : Int × Nat) : Option ℚ :=
  let dischargeCol := (DataDF.map (fun r => (monthKey r.date, r.discharge)))
  CalcRBindex ((dischargeCol.filter (fun p => p.1 = k)).map Prod.snd)

/-- Months linearised for `'MS'` bin generation: month `m` of year `y`
is month number `12·y + (m - 1)`. -/
def monthNum (d : Date) : Int := d.year * 12 + ((d.month : Int) - 1)

/-- The month-start label of month number `n` (first day of the
month), the left bin edge pandas `'MS'` labels rows with. -/
def monthLabel (n : Int) : Date := ⟨n / 12, (n % 12).toNat + 1, 1⟩

/-- Smallest month number among the frame's dates. -/
def moMin (dates : List Date) (d0 : Date) : Int :=
  (dates.map monthNum).foldl min (monthNum d0)

/-- Largest month number among the frame's dates. -/
def moMax (dates : List Date) (d0 : Date) : Int :=
  (dates.map monthNum).foldl max (monthNum d0)

/-- The index of `DataDF.resample('MS').mean()`: one month-start label
per calendar month from the earliest to the latest month of the data,
empty months included. -/
def monthlyIndex (dates : List Date) : List Date :=
  match dates with
  | [] => []
  | d0 :: rest =>
    (List.range (moMax rest d0 - moMin rest d0 + 1).toNat).map
      (fun (k : Nat) => monthLabel (moMin rest d0 + (k : Int)))

/-- One row of the `GetMonthlyStatistics` output table
(program_10.py:164-188): `site_no`, `Mean Flow`, `Coeff Var`, `Tqmean`
and `R-B Index` of a month bucket. -/
structure MonthlyRow where
  site_no : Option Nat
  meanFlow : Option ℚ
  coeffVar : Option ℝ
  tqmean : Option ℚ
  rbIndex : Option ℚ

/-- The metrics of the month bucket `k` of a frame, assembled exactly
as the column assignments of program_10.py:182-186; the `R-B Index`
column goes through the dict-aggregation route of line 186. -/
noncomputable def monthlyRowOf (DataDF : List Row) (k : Int × Nat) :
    MonthlyRow :=
  let bucket := DataDF.filter (fun r => monthKey r.date = k)
  { site_no := siteMin bucket
    meanFlow := pmean (bucket.map Row.discharge)
    coeffVar := coeffVarCol (bucket.map Row.discharge)
    tqmean := CalcTqmean (bucket.map Row.discharge)
    rbIndex := monthlyRBIndexCol DataDF k }

/-- `GetMonthlyStatistics` (program_10.py:164-188): one labelled row
per bin of the `'MS'` resample index; the bucket of the label
`⟨y, m, 1⟩` holds the rows dated inside month `m` of year `y`. -/
noncomputable def GetMonthlyStatistics (DataDF : List Row) :
    List (Date × MonthlyRow) :=
  (monthlyIndex (DataDF.map Row.date)).map
    (fun lbl => (lbl, monthlyRowOf DataDF (lbl.year, lbl.month)))

/-! ## Helper lemmas -/

/-- Negative raw discharge readings of a parsed frame (the entries the
loader overwrites with NaN). -/
def negCount (df : List Row) : Nat :=
  (df.filter (fun r =>
    match r.discharge with
    | some v => decide (v < 0)
    | none => false)).length

lemma date_le_refl (d : Date) : Date.le d d = true := by
  simp [Date.le]

lemma sorted_head_le (d0 : Date) (rest : List Date)
    (hs : (d0 :: rest).Pairwise (fun a b => Date.le a b = true)) :
    ∀ x ∈ d0 :: rest, Date.le d0 x = true := by
  intro x hx
  rcases List.mem_cons.mp hx with rfl | hx
  · exact date_le_refl x
  · exact (List.pairwise_cons.mp hs).1 x hx

lemma sorted_le_getLast (l : List Date) (hne : l ≠ [])
    (hs : l.Pairwise (fun a b => Date.le a b = true)) :
    ∀ x ∈ l, Date.le x (l.getLast hne) = true := by
  induction l with
  | nil => exact absurd rfl hne
  | cons a t ih =>
    intro x hx
    cases t with
    | nil =>
      rcases List.mem_cons.mp hx with rfl | hx
      · exact date_le_refl x
      · exact absurd hx (List.not_mem_nil x)
    | cons b u =>
      have hlast : (a :: b :: u).getLast hne = (b :: u).getLast (by simp) :=
        List.getLast_cons (by simp)
      rw [hlast]
      rcases List.mem_cons.mp hx with rfl | hx
      · exact (List.pairwise_cons.mp hs).1 _ (List.getLast_mem _)
      · exact ih (by simp) (List.pairwise_cons.mp hs).2 x hx

/-! ## C1 -/

/-- C1, counterexample: a parsed frame holding a single negative raw
discharge.  The load reports `0` missing values, yet after the
negative-value correction the frame holds one missing entry — so the
returned count does not equal the post-correction missing count. -/
theorem readData_count_counterexample :
    (ReadData [⟨⟨2000, 1, 1⟩, "USGS", 3, some (-5), "A"⟩]).2 = 0 ∧
    missingCount (ReadData [⟨⟨2000, 1, 1⟩, "USGS", 3, some (-5), "A"⟩]).1 = 1 := by
  decide

/-- C1, amended: the missing-value count returned by the load equals
the number of missing discharge entries *before* the negative-value
correction; the corrected frame's missing count exceeds it by exactly
the number of negative raw readings. -/
theorem readData_count_before_correction (parsed : List Row) :
    (ReadData parsed).2 = missingCount parsed ∧
    missingCount (ReadData parsed).1 = missingCount parsed + negCount parsed := by
  refine ⟨rfl, ?_⟩
  induction parsed with
  | nil => rfl
  | cons r rest ih =>
    simp only [ReadData, missingCount, negCount, List.map_cons,
      List.filter_cons] at ih ⊢
    cases hd : r.discharge with
    | none => simp [hd]; omega
    | some v =>
      by_cases hv : v < 0 <;> simp [hd, hv] <;> omega

/-! ## C8 -/

/-- C8: clipping a (date-sorted) series to its own full range — from
its first date to its last date — returns the series unchanged together
with its unchanged missing-value count, and clipping to any range at
all never increases the row count.  `ClipData` is a pure function, so
the input frame is never mutated. -/
theorem clipData_full_range_identity (df : List Row) (hne : df ≠ [])
    (hsort : (df.map Row.date).Pairwise (fun a b => Date.le a b = true)) :
    ClipData df ((df.head hne).date) (((df.getLast hne).date)) =
      (df, missingCount df) ∧
    ∀ s e, ((ClipData df s e).1).length ≤ df.length := by
  constructor
  · have hhead : (df.map Row.date).head (by simpa using hne) = (df.head hne).date := by
      cases df with
      | nil => exact absurd rfl hne
      | cons a t => rfl
    have hlast : (df.map Row.date).getLast (by simpa using hne) =
        (df.getLast hne).date := by
      set_option linter.unnecessarySimpa false in
      simpa using (List.getLast_map Row.date (l := df) hne).symm
    have hfilter : df.filter (fun r =>
        Date.le ((df.head hne).date) r.date && Date.le r.date ((df.getLast hne).date)) = df := by
      apply List.filter_eq_self.mpr
      intro r hr
      have hrd : r.date ∈ df.map Row.date := List.mem_map_of_mem Row.date hr
      have h1 : Date.le ((df.head hne).date) r.date = true := by
        cases hd : df.map Row.date with
        | nil => simp [hd] at hrd
        | cons d0 rest =>
          have := sorted_head_le d0 rest (hd ▸ hsort) r.date (hd ▸ hrd)
          have hh : (df.map Row.date).head (by simpa using hne) = d0 := by
            simp [hd]
          rw [← hhead, hh]
          exact this
      have h2 : Date.le r.date ((df.getLast hne).date) = true := by
        rw [← hlast]
        exact sorted_le_getLast (df.map Row.date) (by simpa using hne) hsort r.date hrd
      simp [h1, h2]
    simp only [ClipData, hfilter]
  · intro s e
    simpa [ClipData] using List.length_filter_le _ df

/-- C8 witness: the full-range clip and the length bound at a concrete
two-row frame. -/
theorem clipData_full_range_identity_witness :
    ClipData
      [⟨⟨2000, 1, 1⟩, "USGS", 3, some 1, "A"⟩,
       ⟨⟨2000, 1, 2⟩, "USGS", 3, none, "A"⟩]
      ⟨2000, 1, 1⟩ ⟨2000, 1, 2⟩ =
      ([⟨⟨2000, 1, 1⟩, "USGS", 3, some 1, "A"⟩,
        ⟨⟨2000, 1, 2⟩, "USGS", 3, none, "A"⟩], 1) ∧
    ((ClipData
      [⟨⟨2000, 1, 1⟩, "USGS", 3, some 1, "A"⟩,
       ⟨⟨2000, 1, 2⟩, "USGS", 3, none, "A"⟩] ⟨1999, 1, 1⟩ ⟨2000, 1, 1⟩).1).length ≤ 2 := by
  have h := clipData_full_range_identity
    [⟨⟨2000, 1, 1⟩, "USGS", 3, some 1, "A"⟩,
     ⟨⟨2000, 1, 2⟩, "USGS", 3, none, "A"⟩] (by decide) (by decide)
  exact ⟨h.1, h.2 ⟨1999, 1, 1⟩ ⟨2000, 1, 1⟩⟩

/-! ## C3 -/

lemma validVals_map_some (vals : List ℚ) : validVals (vals.map some) = vals := by
  simp [validVals, List.filterMap_map]

/-- C3: on a non-empty series with no missing values, `CalcTqmean`
returns a defined value in the closed interval `[0, 1]`, and that value
is `0` exactly when no value strictly exceeds the series mean. -/
theorem calcTqmean_range_and_zero_iff (vals : List ℚ) (hne : vals ≠ []) :
    ∃ t, CalcTqmean (vals.map some) = some t ∧ 0 ≤ t ∧ t ≤ 1 ∧
      (t = 0 ↔ ∀ v ∈ vals, v ≤ vals.sum / vals.length) := by
  have hv : validVals (vals.map some) = vals := validVals_map_some vals
  have hn : 0 < vals.length := List.length_pos.mpr hne
  have hmean : pmean (vals.map some) = some (vals.sum / vals.length) := by
    simp [pmean, hv, Nat.pos_iff_ne_zero.mp hn]
  set μ : ℚ := vals.sum / vals.length with hμ
  have hcount : ((vals.map some).filter (fun x =>
      match x, pmean (vals.map some) with
      | some a, some b => decide (b < a)
      | _, _ => false)).length =
      (vals.filter (fun a => decide (μ < a))).length := by
    rw [hmean, List.filter_map, List.length_map]
    rfl
  refine ⟨((vals.filter (fun a => decide (μ < a))).length : ℚ) / (vals.length : ℚ),
    ?_, ?_, ?_, ?_⟩
  · simp only [CalcTqmean, hcount, List.length_map,
      Nat.pos_iff_ne_zero.mp hn, if_false]
  · positivity
  · rw [div_le_one (by exact_mod_cast hn)]
    exact_mod_cast List.length_filter_le _ vals
  · rw [div_eq_zero_iff]
    constructor
    · intro h
      have hc : (vals.filter (fun a => decide (μ < a))).length = 0 := by
        rcases h with h | h
        · exact_mod_cast h
        · exact absurd h (by exact_mod_cast hn.ne')
      intro v hvmem
      have := List.filter_eq_nil_iff.mp (List.length_eq_zero.mp hc) v hvmem
      simpa using this
    · intro h
      left
      have : vals.filter (fun a => decide (μ < a)) = [] := by
        apply List.filter_eq_nil_iff.mpr
        intro a ha
        simpa using h a ha
      simp [this]

/-- C3 witness: the series `[1, 2, 3]` has mean `2`; one of three
values exceeds it, so `Tqmean = 1/3`, inside `[0, 1]` and nonzero. -/
theorem calcTqmean_range_witness :
    ∃ t, CalcTqmean ([(1 : ℚ), 2, 3].map some) = some t ∧ 0 ≤ t ∧ t ≤ 1 ∧
      (t = 0 ↔ ∀ v ∈ [(1 : ℚ), 2, 3], v ≤ [(1 : ℚ), 2, 3].sum / ([(1 : ℚ), 2, 3].length)) :=
  calcTqmean_range_and_zero_iff [1, 2, 3] (by decide)

/-! ## C4 -/

lemma zipWith_osub_map_some (l1 l2 : List ℚ) :
    List.zipWith osub (l1.map some) (l2.map some) =
      List.zipWith (fun a b => some (a - b)) l1 l2 := by
  induction l1 generalizing l2 with
  | nil => simp
  | cons a t ih =>
    cases l2 with
    | nil => simp
    | cons b u => simp [osub, ih]

lemma mem_zipWith_exists {α β γ : Type} {f : α → β → γ} {l1 : List α}
    {l2 : List β} {x : γ} (h : x ∈ List.zipWith f l1 l2) :
    ∃ a ∈ l1, ∃ b ∈ l2, x = f a b := by
  induction l1 generalizing l2 with
  | nil => simp at h
  | cons a t ih =>
    cases l2 with
    | nil => simp at h
    | cons b u =>
      rw [List.zipWith_cons_cons] at h
      rcases List.mem_cons.mp h with rfl | h
      · exact ⟨a, List.mem_cons_self _ _, b, List.mem_cons_self _ _, rfl⟩
      · obtain ⟨a', ha', b', hb', rfl⟩ := ih h
        exact ⟨a', List.mem_cons_of_mem _ ha', b', List.mem_cons_of_mem _ hb', rfl⟩

lemma sum_eq_zero_iff_of_nonneg (l : List ℚ) (h : ∀ x ∈ l, 0 ≤ x) :
    l.sum = 0 ↔ ∀ x ∈ l, x = 0 := by
  induction l with
  | nil => simp
  | cons a t ih =>
    have ha : 0 ≤ a := h a (List.mem_cons_self a t)
    have ht : ∀ x ∈ t, 0 ≤ x := fun x hx => h x (List.mem_cons_of_mem a hx)
    have hts : 0 ≤ t.sum := List.sum_nonneg ht
    rw [List.sum_cons]
    constructor
    · intro hz
      have ha0 : a = 0 := by linarith [List.sum_nonneg ht]
      have ht0 : t.sum = 0 := by linarith
      intro x hx
      rcases List.mem_cons.mp hx with rfl | hx
      · exact ha0
      · exact ((ih ht).mp ht0) x hx
    · intro hz
      have ha0 : a = 0 := hz a (List.mem_cons_self a t)
      have ht0 : t.sum = 0 := (ih ht).mpr (fun x hx => hz x (List.mem_cons_of_mem a hx))
      rw [ha0, ht0, add_zero]

lemma abs_diffs_zero_iff_constant (v0 : ℚ) (l : List ℚ) :
    (∀ x ∈ List.zipWith (fun a b => |a - b|) l (v0 :: l), x = 0) ↔
      ∀ b ∈ v0 :: l, b = v0 := by
  induction l generalizing v0 with
  | nil => simp
  | cons w t ih =>
    rw [List.zipWith_cons_cons]
    constructor
    · intro h b hb
      have hw : w = v0 := by
        have := h _ (List.mem_cons_self _ _)
        have habs : |w - v0| = 0 := this
        have := abs_eq_zero.mp habs
        linarith
      have htail : ∀ b ∈ w :: t, b = w :=
        (ih w).mp (fun x hx => h x (List.mem_cons_of_mem _ hx))
      rcases List.mem_cons.mp hb with rfl | hb
      · rfl
      · rw [htail b hb, hw]
    · intro h x hx
      have hw : w = v0 := h w (List.mem_cons_of_mem _ (List.mem_cons_self _ _))
      rcases List.mem_cons.mp hx with rfl | hx
      · simp [hw]
      · refine (ih w).mpr ?_ x hx
        intro b hb
        rw [h b (List.mem_cons_of_mem _ hb), hw]

/-- The R-B Index of a series of plain (non-missing) values: the sum of
absolute consecutive differences over the total, `none` when the total
vanishes. -/
lemma rbindex_map_some (v0 : ℚ) (tl : List ℚ) :
    CalcRBindex ((v0 :: tl).map some) =
      if (v0 :: tl).sum = 0 then none
      else some ((List.zipWith (fun a b => |a - b|) tl (v0 :: tl)).sum /
        (v0 :: tl).sum) := by
  have htot : psum ((v0 :: tl).map some) = (v0 :: tl).sum := by
    rw [psum, validVals_map_some]
  have hpath : psum ((pdiff ((v0 :: tl).map some)).map (Option.map (|·|))) =
      (List.zipWith (fun a b => |a - b|) tl (v0 :: tl)).sum := by
    have h1 : pdiff ((v0 :: tl).map some) =
        none :: List.zipWith osub (tl.map some) ((v0 :: tl).map some) := by
      simp [pdiff]
    rw [h1, zipWith_osub_map_some]
    have h2 : List.map (Option.map (|·|))
        (List.zipWith (fun a b => some (a - b)) tl (v0 :: tl)) =
        List.zipWith (fun a b => some (|a - b|)) tl (v0 :: tl) := by
      rw [List.map_zipWith]
      rfl
    have h3 : List.zipWith (fun a b => some (|a - b|)) tl (v0 :: tl) =
        List.map some (List.zipWith (fun a b => |a - b|) tl (v0 :: tl)) := by
      rw [List.map_zipWith]
    rw [List.map_cons, h2, h3, psum]
    show ((List.map some (List.zipWith (fun a b => |a - b|) tl (v0 :: tl))).filterMap id).sum = _
    rw [show ∀ l : List ℚ, (List.map some l).filterMap id = l from
      fun l => validVals_map_some l]
  rw [CalcRBindex, htot, hpath]

/-- C4, counterexample: the all-zero series is constant and
non-negative, yet its R-B Index is NaN (`0/0`), not `0` — refuting
both "always ≥ 0" and "equals 0 iff the series is constant". -/
theorem calcRBindex_constant_counterexample :
    (∀ v ∈ [(0 : ℚ), 0], 0 ≤ v) ∧
    (∀ a ∈ [(0 : ℚ), 0], ∀ b ∈ [(0 : ℚ), 0], a = b) ∧
    CalcRBindex ([(0 : ℚ), 0].map some) = none := by
  refine ⟨by intro v hv; rcases List.mem_cons.mp hv with rfl | hv <;> simp_all,
    by intro a ha b hb; rcases List.mem_cons.mp ha with rfl | ha <;>
      rcases List.mem_cons.mp hb with rfl | hb <;> simp_all, ?_⟩
  rw [rbindex_map_some, if_pos (by norm_num)]

/-- C4, amended: on a non-negative series with no missing entries and
non-zero total discharge, the R-B Index is defined and ≥ 0, and is `0`
exactly when the series is constant.  (The all-zero series — the only
non-negative constant series excluded — yields NaN, and a series with
missing entries can score `0` without being constant.) -/
theorem calcRBindex_nonneg_zero_iff_constant (vals : List ℚ)
    (hnn : ∀ v ∈ vals, 0 ≤ v) (hsum : vals.sum ≠ 0) :
    ∃ r, CalcRBindex (vals.map some) = some r ∧ 0 ≤ r ∧
      (r = 0 ↔ ∀ a ∈ vals, ∀ b ∈ vals, a = b) := by
  cases vals with
  | nil => simp at hsum
  | cons v0 tl =>
    have habs : ∀ x ∈ List.zipWith (fun a b => |a - b|) tl (v0 :: tl), 0 ≤ x := by
      intro x hx
      obtain ⟨a, -, b, -, rfl⟩ := mem_zipWith_exists hx
      exact abs_nonneg _
    have hts : 0 < (v0 :: tl).sum :=
      lt_of_le_of_ne (List.sum_nonneg hnn) (Ne.symm hsum)
    refine ⟨(List.zipWith (fun a b => |a - b|) tl (v0 :: tl)).sum / (v0 :: tl).sum,
      ?_, ?_, ?_⟩
    · rw [rbindex_map_some, if_neg hsum]
    · exact div_nonneg (List.sum_nonneg habs) hts.le
    · rw [div_eq_zero_iff]
      constructor
      · intro h
        have hp : (List.zipWith (fun a b => |a - b|) tl (v0 :: tl)).sum = 0 := by
          rcases h with h | h
          · exact h
          · exact absurd h hsum
        have hconst := (abs_diffs_zero_iff_constant v0 tl).mp
          ((sum_eq_zero_iff_of_nonneg _ habs).mp hp)
        intro a ha b hb
        rw [hconst a ha, hconst b hb]
      · intro h
        left
        refine (sum_eq_zero_iff_of_nonneg _ habs).mpr ?_
        refine (abs_diffs_zero_iff_constant v0 tl).mpr ?_
        intro b hb
        exact h b hb v0 (List.mem_cons_self _ _)

/-- C4 witness: the series `[1, 3]` (non-negative, total `4`) has
R-B Index `2/4 = 1/2 ≥ 0`, nonzero as the series is not constant. -/
theorem calcRBindex_nonneg_witness :
    ∃ r, CalcRBindex ([(1 : ℚ), 3].map some) = some r ∧ 0 ≤ r ∧
      (r = 0 ↔ ∀ a ∈ [(1 : ℚ), 3], ∀ b ∈ [(1 : ℚ), 3], a = b) :=
  calcRBindex_nonneg_zero_iff_constant [1, 3]
    (by intro v hv; rcases List.mem_cons.mp hv with rfl | hv <;> simp_all)
    (by norm_num)

/-! ## C7 -/

/-- C7: on a discharge series whose non-negative values (the data-model
invariant after loading) sum to zero, `CalcRBindex` yields NaN rather
than faulting: the pathlength numerator is itself `0`, so the division
is the non-fault `0/0` case, and the result is undefined (`none`). -/
theorem calcRBindex_zero_total_nan (Q : List (Option ℚ))
    (hnn : ∀ x ∈ Q, ∀ v, x = some v → 0 ≤ v)
    (hzero : psum Q = 0) :
    CalcRBindex Q = none ∧ psum ((pdiff Q).map (Option.map (|·|))) = 0 := by
  have hvals0 : ∀ v ∈ validVals Q, v = 0 := by
    have hvnn : ∀ v ∈ validVals Q, 0 ≤ v := by
      intro v hv
      obtain ⟨x, hx, hxv⟩ := List.mem_filterMap.mp hv
      exact hnn x hx v hxv
    exact (sum_eq_zero_iff_of_nonneg _ hvnn).mp hzero
  refine ⟨by simp [CalcRBindex, hzero], ?_⟩
  have hdiff0 : ∀ w ∈ validVals ((pdiff Q).map (Option.map (|·|))), w = 0 := by
    intro w hw
    obtain ⟨y, hy, hyw⟩ := List.mem_filterMap.mp hw
    obtain ⟨z, hz, rfl⟩ := List.mem_map.mp hy
    cases z with
    | none => simp at hyw
    | some u =>
      have hwu : w = |u| := by
        simpa using hyw.symm
      cases Q with
      | nil => simp [pdiff] at hz
      | cons q0 tail =>
        simp only [pdiff] at hz
        rcases List.mem_cons.mp hz with h | h
        · exact absurd h (by simp)
        · obtain ⟨a, ha, b, hb, hab⟩ := mem_zipWith_exists h
          cases a with
          | none => simp [osub] at hab
          | some va =>
            cases b with
            | none => simp [osub] at hab
            | some vb =>
              have huv : u = va - vb := by simpa [osub] using hab
              have hva : va = 0 := hvals0 va
                (List.mem_filterMap.mpr ⟨some va, List.mem_cons_of_mem _ ha, rfl⟩)
              have hvb : vb = 0 := hvals0 vb (List.mem_filterMap.mpr ⟨some vb, hb, rfl⟩)
              rw [hwu, huv, hva, hvb]
              simp
  exact List.sum_eq_zero hdiff0

/-- C7 witness: the series `[0, NaN, 0]` has total discharge `0`;
its R-B Index is NaN and its pathlength is `0`. -/
theorem calcRBindex_zero_total_nan_witness :
    CalcRBindex [some 0, none, some 0] = none ∧
    psum ((pdiff [some 0, none, some 0]).map (Option.map (|·|))) = 0 :=
  calcRBindex_zero_total_nan [some 0, none, some 0]
    (by
      intro x hx v hxv
      rcases List.mem_cons.mp hx with rfl | hx
      · simp_all
      rcases List.mem_cons.mp hx with rfl | hx
      · simp_all
      rcases List.mem_cons.mp hx with rfl | hx
      · simp_all
      · simp at hx)
    (by simp [psum, validVals, List.filterMap_cons])

/-! ## C6 and C10 -/

lemma foldl_min_all_eq (x : ℚ) (xs : List ℚ) (h : ∀ y ∈ xs, y = x) :
    xs.foldl min x = x := by
  induction xs with
  | nil => rfl
  | cons z t ih =>
    rw [List.foldl_cons, h z (List.mem_cons_self _ _), min_self]
    exact ih (fun y hy => h y (List.mem_cons_of_mem _ hy))

lemma pmin_eq_none (Q : List (Option ℚ)) (h : validVals Q = []) :
    pmin Q = none := by
  have hQ : pmin Q = match validVals Q with
    | [] => none
    | x :: xs => some (xs.foldl min x) := rfl
  rw [hQ, h]

lemma pmin_of_all_eq (Q : List (Option ℚ)) (c : ℚ)
    (hmem : c ∈ validVals Q) (hall : ∀ y ∈ validVals Q, y = c) :
    pmin Q = some c := by
  have hQ : pmin Q = match validVals Q with
    | [] => none
    | x :: xs => some (xs.foldl min x) := rfl
  cases h : validVals Q with
  | nil => rw [h] at hmem; exact absurd hmem (List.not_mem_nil c)
  | cons x xs =>
    have hx : x = c := hall x (by rw [h]; exact List.mem_cons_self _ _)
    have hxs : ∀ y ∈ xs, y = x := by
      intro y hy
      rw [hall y (by rw [h]; exact List.mem_cons_of_mem _ hy), hx]
    rw [hQ, h]
    show some (List.foldl min x xs) = some c
    rw [foldl_min_all_eq x xs hxs, hx]

lemma length_filterMap_id_lt_of_none_mem (l : List (Option ℚ))
    (h : none ∈ l) : (l.filterMap id).length < l.length := by
  induction l with
  | nil => simp at h
  | cons a t ih =>
    cases a with
    | none =>
      have : (List.filterMap id (none :: t)).length = (List.filterMap id t).length := by
        simp
      rw [this, List.length_cons]
      exact Nat.lt_succ_of_le (List.length_filterMap_le id t)
    | some v =>
      have hmem : none ∈ t := by
        rcases List.mem_cons.mp h with h' | h'
        · exact absurd h' (by simp)
        · exact h'
      have : (List.filterMap id (some v :: t)).length =
          (List.filterMap id t).length + 1 := by simp
      rw [this, List.length_cons]
      exact Nat.succ_lt_succ (ih hmem)

lemma sum_all_eq (l : List ℚ) (c : ℚ) (h : ∀ y ∈ l, y = c) :
    l.sum = l.length * c := by
  induction l with
  | nil => simp
  | cons z t ih =>
    rw [List.sum_cons, h z (List.mem_cons_self _ _),
      ih (fun y hy => h y (List.mem_cons_of_mem _ hy)), List.length_cons]
    push_cast
    ring

/-- C6: `Calc7Q` of a series shorter than seven entries is NaN (every
rolling window is incomplete); `Calc7Q` of a constant no-missing series
of length at least seven is that constant. -/
theorem calc7Q_short_none_and_constant (Q : List (Option ℚ)) (c : ℚ)
    (vals : List ℚ) :
    (Q.length < 7 → Calc7Q Q = none) ∧
    ((∀ v ∈ vals, v = c) → 7 ≤ vals.length →
      Calc7Q (vals.map some) = some c) := by
  constructor
  · intro hlen
    apply pmin_eq_none
    apply List.filterMap_eq_nil_iff.mpr
    intro x hx
    obtain ⟨i, hi, rfl⟩ := List.mem_map.mp hx
    have hilt : i < Q.length := List.mem_range.mp hi
    have h6 : ¬ 6 ≤ i := by omega
    simp [h6]
  · intro hconst hlen
    have hwindow : ∀ k, ((((vals.map some).drop k).take 7).filterMap id) =
        (vals.drop k).take 7 := by
      intro k
      rw [← List.map_drop, ← List.map_take]
      exact validVals_map_some _
    have hwin_elts : ∀ k, ∀ y ∈ (vals.drop k).take 7, y = c := by
      intro k y hy
      exact hconst y (List.mem_of_mem_drop (List.mem_of_mem_take hy))
    have hentry : ∀ i, 6 ≤ i →
        (if 6 ≤ i then
          if ((((vals.map some).drop (i - 6)).take 7).filterMap id).length = 7 then
            some (((((vals.map some).drop (i - 6)).take 7).filterMap id).sum / 7)
          else none
        else none) = none ∨
        (if 6 ≤ i then
          if ((((vals.map some).drop (i - 6)).take 7).filterMap id).length = 7 then
            some (((((vals.map some).drop (i - 6)).take 7).filterMap id).sum / 7)
          else none
        else none) = some c := by
      intro i h6
      rw [if_pos h6, hwindow (i - 6)]
      by_cases h7 : ((vals.drop (i - 6)).take 7).length = 7
      · right
        rw [if_pos h7, sum_all_eq _ c (hwin_elts (i - 6)), h7]
        norm_num
      · left
        rw [if_neg h7]
    have hmem : ∀ x ∈ rollingMean7 (vals.map some), x = none ∨ x = some c := by
      intro x hx
      obtain ⟨i, hi, rfl⟩ := List.mem_map.mp hx
      by_cases h6 : 6 ≤ i
      · exact hentry i h6
      · left
        simp [h6]
    have h6mem : some c ∈ rollingMean7 (vals.map some) := by
      have h6lt : 6 < (vals.map some).length := by
        rw [List.length_map]; omega
      refine List.mem_map.mpr ⟨6, List.mem_range.mpr h6lt, ?_⟩
      show (if 6 ≤ 6 then
          if ((((vals.map some).drop (6 - 6)).take 7).filterMap id).length = 7 then
            some (((((vals.map some).drop (6 - 6)).take 7).filterMap id).sum / 7)
          else none
        else none) = some c
      rw [if_pos (le_refl 6), hwindow (6 - 6)]
      have h7 : ((vals.drop (6 - 6)).take 7).length = 7 := by
        simp [List.length_take, List.length_drop]
        omega
      rw [if_pos h7, sum_all_eq _ c (hwin_elts (6 - 6)), h7]
      norm_num
    apply pmin_of_all_eq
    · exact List.mem_filterMap.mpr ⟨some c, h6mem, rfl⟩
    · intro y hy
      obtain ⟨x, hx, hxy⟩ := List.mem_filterMap.mp hy
      rcases hmem x hx with rfl | rfl
      · exact absurd hxy (by simp)
      · simpa using hxy.symm

/-- C6 witness: `Calc7Q` of a 3-entry series is NaN; `Calc7Q` of the
constant 7-entry series of fives is `5`. -/
theorem calc7Q_short_none_and_constant_witness :
    Calc7Q [some 1, some 2, some 3] = none ∧
    Calc7Q ((List.replicate 7 (5 : ℚ)).map some) = some 5 := by
  refine ⟨(calc7Q_short_none_and_constant [some 1, some 2, some 3] 0 []).1 (by norm_num),
    (calc7Q_short_none_and_constant [] 5 (List.replicate 7 5)).2 ?_ (by simp)⟩
  intro v hv
  exact List.eq_of_mem_replicate hv

set_option linter.unusedVariables false in
/-- C10: `Calc7Q` excludes every 7-day window containing a missing
value (such windows contribute NaN by `min_periods`); when the series
has at least 7 entries but every window of 7 consecutive entries
contains a missing value, the minimum ranges over no valid window at
all and the result is NaN. -/
theorem calc7Q_no_full_window_none (Q : List (Option ℚ))
    (hlen : 7 ≤ Q.length)
    (hgap : ∀ i, i + 7 ≤ Q.length → none ∈ (Q.drop i).take 7) :
    Calc7Q Q = none := by
  apply pmin_eq_none
  apply List.filterMap_eq_nil_iff.mpr
  intro x hx
  obtain ⟨i, hi, rfl⟩ := List.mem_map.mp hx
  have hilt : i < Q.length := List.mem_range.mp hi
  by_cases h6 : 6 ≤ i
  · have hnone : none ∈ (Q.drop (i - 6)).take 7 := hgap (i - 6) (by omega)
    have hlt : (((Q.drop (i - 6)).take 7).filterMap id).length <
        ((Q.drop (i - 6)).take 7).length :=
      length_filterMap_id_lt_of_none_mem _ hnone
    have hle : ((Q.drop (i - 6)).take 7).length ≤ 7 := by
      simp [List.length_take]
    have h7 : ¬ (((Q.drop (i - 6)).take 7).filterMap id).length = 7 := by omega
    show id (if 6 ≤ i then
        if (((Q.drop (i - 6)).take 7).filterMap id).length = 7 then
          some ((((Q.drop (i - 6)).take 7).filterMap id).sum / 7)
        else none
      else none) = none
    rw [id_eq, if_pos h6, if_neg h7]
  · show id (if 6 ≤ i then
        if (((Q.drop (i - 6)).take 7).filterMap id).length = 7 then
          some ((((Q.drop (i - 6)).take 7).filterMap id).sum / 7)
        else none
      else none) = none
    rw [id_eq, if_neg h6]

/-- C10 witness: an 8-entry series with one missing value in position 3
has no run of 7 consecutive valid entries, so its 7Q is NaN. -/
theorem calc7Q_no_full_window_witness :
    Calc7Q [some 1, some 1, some 1, none, some 1, some 1, some 1, some 1] = none :=
  calc7Q_no_full_window_none
    [some 1, some 1, some 1, none, some 1, some 1, some 1, some 1]
    (by simp)
    (by
      intro i hi
      simp only [List.length_cons, List.length_nil] at hi
      have h1 : i ≤ 1 := by omega
      interval_cases i <;> decide)

/-! ## C5 -/

lemma foldl_min_le_init (l : List Int) (a : Int) : l.foldl min a ≤ a := by
  induction l generalizing a with
  | nil => exact le_refl a
  | cons b t ih => exact le_trans (ih (min a b)) (min_le_left a b)

lemma foldl_min_le_all (l : List Int) (a : Int) : ∀ x ∈ l, l.foldl min a ≤ x := by
  induction l generalizing a with
  | nil => intro x hx; simp at hx
  | cons b t ih =>
    intro x hx
    rcases List.mem_cons.mp hx with rfl | hx
    · exact le_trans (foldl_min_le_init t (min a x)) (min_le_right a x)
    · exact ih (min a b) x hx

lemma foldl_min_cases (l : List Int) (a : Int) :
    l.foldl min a = a ∨ l.foldl min a ∈ l := by
  induction l generalizing a with
  | nil => exact Or.inl rfl
  | cons b t ih =>
    rcases ih (min a b) with h | h
    · rw [List.foldl_cons, h]
      rcases min_choice a b with h' | h'
      · exact Or.inl h'
      · exact Or.inr (by rw [h']; exact List.mem_cons_self b t)
    · exact Or.inr (List.mem_cons_of_mem b h)

lemma init_le_foldl_max (l : List Int) (a : Int) : a ≤ l.foldl max a := by
  induction l generalizing a with
  | nil => exact le_refl a
  | cons b t ih => exact le_trans (le_max_left a b) (ih (max a b))

lemma all_le_foldl_max (l : List Int) (a : Int) : ∀ x ∈ l, x ≤ l.foldl max a := by
  induction l generalizing a with
  | nil => intro x hx; simp at hx
  | cons b t ih =>
    intro x hx
    rcases List.mem_cons.mp hx with rfl | hx
    · exact le_trans (le_max_right a x) (init_le_foldl_max t (max a x))
    · exact ih (max a b) x hx

lemma foldl_max_cases (l : List Int) (a : Int) :
    l.foldl max a = a ∨ l.foldl max a ∈ l := by
  induction l generalizing a with
  | nil => exact Or.inl rfl
  | cons b t ih =>
    rcases ih (max a b) with h | h
    · rw [List.foldl_cons, h]
      rcases max_choice a b with h' | h'
      · exact Or.inl h'
      · exact Or.inr (by rw [h']; exact List.mem_cons_self b t)
    · exact Or.inr (List.mem_cons_of_mem b h)

lemma wyMin_le_waterYear (d0 : Date) (rest : List Date) :
    ∀ d ∈ d0 :: rest, wyMin rest d0 ≤ waterYear d := by
  intro d hd
  rcases List.mem_cons.mp hd with rfl | hd
  · exact foldl_min_le_init _ _
  · exact foldl_min_le_all _ _ _ (List.mem_map_of_mem waterYear hd)

lemma waterYear_le_wyMax (d0 : Date) (rest : List Date) :
    ∀ d ∈ d0 :: rest, waterYear d ≤ wyMax rest d0 := by
  intro d hd
  rcases List.mem_cons.mp hd with rfl | hd
  · exact init_le_foldl_max _ _
  · exact all_le_foldl_max _ _ _ (List.mem_map_of_mem waterYear hd)

lemma wyMin_mem (d0 : Date) (rest : List Date) :
    wyMin rest d0 ∈ (d0 :: rest).map waterYear := by
  rw [List.map_cons]
  rcases foldl_min_cases (rest.map waterYear) (waterYear d0) with h | h
  · exact h ▸ List.mem_cons_self _ _
  · exact List.mem_cons_of_mem _ h

lemma wyMax_mem (d0 : Date) (rest : List Date) :
    wyMax rest d0 ∈ (d0 :: rest).map waterYear := by
  rw [List.map_cons]
  rcases foldl_max_cases (rest.map waterYear) (waterYear d0) with h | h
  · exact h ▸ List.mem_cons_self _ _
  · exact List.mem_cons_of_mem _ h

lemma annualIndex_mem_iff (d0 : Date) (rest : List Date) (lbl : Date) :
    lbl ∈ annualIndex (d0 :: rest) ↔
      ∃ y, wyMin rest d0 ≤ y ∧ y ≤ wyMax rest d0 ∧ lbl = ⟨y, 9, 30⟩ := by
  have hminmax : wyMin rest d0 ≤ wyMax rest d0 :=
    le_trans (foldl_min_le_init _ _) (init_le_foldl_max _ _)
  simp only [annualIndex, List.mem_map, List.mem_range]
  constructor
  · rintro ⟨k, hk, rfl⟩
    exact ⟨wyMin rest d0 + k, by omega, by omega, rfl⟩
  · rintro ⟨y, h1, h2, rfl⟩
    refine ⟨(y - wyMin rest d0).toNat, by omega, ?_⟩
    have hy : wyMin rest d0 + ((y - wyMin rest d0).toNat : Int) = y := by omega
    rw [hy]

lemma annualIndex_nodup (d0 : Date) (rest : List Date) :
    (annualIndex (d0 :: rest)).Nodup := by
  show ((List.range (wyMax rest d0 - wyMin rest d0 + 1).toNat).map
    (fun (k : Nat) => (⟨wyMin rest d0 + (k : Int), 9, 30⟩ : Date))).Nodup
  refine List.Nodup.map ?_ (List.nodup_range _)
  intro a b hab
  simp only [Date.mk.injEq] at hab
  omega

lemma waterYear_label_mem_annualIndex (dates : List Date) (d : Date)
    (hd : d ∈ dates) : (⟨waterYear d, 9, 30⟩ : Date) ∈ annualIndex dates := by
  cases dates with
  | nil => simp at hd
  | cons d0 rest =>
    rw [annualIndex_mem_iff]
    exact ⟨waterYear d, wyMin_le_waterYear d0 rest d hd,
      waterYear_le_wyMax d0 rest d hd, rfl⟩

lemma waterYear_eq_iff_range (d : Date) (wy : Int) (hv : d.Valid) :
    waterYear d = wy ↔
      (Date.le ⟨wy - 1, 10, 1⟩ d = true ∧ Date.le d ⟨wy, 9, 30⟩ = true) := by
  have h30 : d.month = 9 → d.day ≤ 30 := by
    intro h9
    have h := hv.2.2.2
    rw [h9] at h
    simpa [Date.daysInMonth] using h
  have hm1 := hv.1
  have hm12 := hv.2.1
  have hd1 := hv.2.2.1
  simp only [waterYear, Date.le, decide_eq_true_eq]
  by_cases hm : 10 ≤ d.month
  · rw [if_pos hm]
    constructor
    · intro h
      exact ⟨by omega, by omega⟩
    · rintro ⟨ha, hb⟩
      omega
  · rw [if_neg hm]
    by_cases h9 : d.month = 9
    · have hd30 := h30 h9
      constructor
      · intro h
        exact ⟨by omega, by omega⟩
      · rintro ⟨ha, hb⟩
        omega
    · constructor
      · intro h
        exact ⟨by omega, by omega⟩
      · rintro ⟨ha, hb⟩
        omega

lemma getAnnualStatistics_labels (df : List Row) :
    (GetAnnualStatistics df).map Prod.fst = annualIndex (df.map Row.date) := by
  rw [GetAnnualStatistics, List.map_map]
  exact List.map_id _

/-- C5: annual aggregation buckets by water year — a valid date `d`
falls in water year `wy` exactly when October 1 of `wy - 1` ≤ `d` ≤
September 30 of `wy`; the `'A-SEP'` resample index holds exactly the
September-30 labels of the water years from the data's earliest to its
latest water year, each exactly once; and `GetAnnualStatistics` emits
one summary row per label of that index. -/
theorem annual_water_year_bucketing (d : Date) (wy : Int) (hv : d.Valid)
    (d0 : Date) (rest : List Date) (df : List Row) :
    (waterYear d = wy ↔
      (Date.le ⟨wy - 1, 10, 1⟩ d = true ∧ Date.le d ⟨wy, 9, 30⟩ = true)) ∧
    (∀ lbl, lbl ∈ annualIndex (d0 :: rest) ↔
      ∃ y, wyMin rest d0 ≤ y ∧ y ≤ wyMax rest d0 ∧ lbl = ⟨y, 9, 30⟩) ∧
    (annualIndex (d0 :: rest)).Nodup ∧
    (∀ e ∈ d0 :: rest,
      wyMin rest d0 ≤ waterYear e ∧ waterYear e ≤ wyMax rest d0) ∧
    wyMin rest d0 ∈ (d0 :: rest).map waterYear ∧
    wyMax rest d0 ∈ (d0 :: rest).map waterYear ∧
    (GetAnnualStatistics df).map Prod.fst = annualIndex (df.map Row.date) :=
  ⟨waterYear_eq_iff_range d wy hv,
   annualIndex_mem_iff d0 rest,
   annualIndex_nodup d0 rest,
   fun e he => ⟨wyMin_le_waterYear d0 rest e he, waterYear_le_wyMax d0 rest e he⟩,
   wyMin_mem d0 rest, wyMax_mem d0 rest,
   getAnnualStatistics_labels df⟩

/-- C5 witness: December 15, 1999 falls in water year 2000 (its bucket
runs October 1, 1999 – September 30, 2000); for a series covering water
years 2000–2001, the label September 30, 2000 sits in the annual index,
which is duplicate-free. -/
theorem annual_water_year_bucketing_witness :
    (waterYear ⟨1999, 12, 15⟩ = 2000 ↔
      (Date.le ⟨1999, 10, 1⟩ ⟨1999, 12, 15⟩ = true ∧
       Date.le ⟨1999, 12, 15⟩ ⟨2000, 9, 30⟩ = true)) ∧
    ((⟨2000, 9, 30⟩ : Date) ∈ annualIndex [⟨1999, 10, 1⟩, ⟨2001, 5, 2⟩] ↔
      ∃ y, wyMin [⟨2001, 5, 2⟩] ⟨1999, 10, 1⟩ ≤ y ∧
        y ≤ wyMax [⟨2001, 5, 2⟩] ⟨1999, 10, 1⟩ ∧
        (⟨2000, 9, 30⟩ : Date) = ⟨y, 9, 30⟩) ∧
    (annualIndex [⟨1999, 10, 1⟩, ⟨2001, 5, 2⟩]).Nodup := by
  have h := annual_water_year_bucketing ⟨1999, 12, 15⟩ 2000 (by decide)
    ⟨1999, 10, 1⟩ [⟨2001, 5, 2⟩] []
  have e1 : ((2000 : Int) - 1) = 1999 := by norm_num
  rw [e1] at h
  exact ⟨h.1, h.2.1 ⟨2000, 9, 30⟩, h.2.2.1⟩

/-! ## C9 -/

/-- C9: the monthly `R-B Index` route — the dict aggregation
`MoData.apply({'Discharge': lambda x: CalcRBindex(x)})` — produces, for
every month bucket, exactly the uniform per-bucket application of
`CalcRBindex` to the bucket's discharge values that the annual route
uses; the two computation routes are equivalent. -/
theorem monthly_rbindex_route_equiv (DataDF : List Row) (k : Int × Nat) :
    monthlyRBIndexCol DataDF k = specRBPerMonthBucket DataDF k := by
  rw [monthlyRBIndexCol, specRBPerMonthBucket]
  congr 1
  rw [List.filter_map, List.map_map]
  rfl

/-! ## C2 -/

lemma validVals_eq_nil (Q : List (Option ℚ)) (h : ∀ x ∈ Q, x = none) :
    validVals Q = [] :=
  List.filterMap_eq_nil_iff.mpr (fun a ha => by rw [h a ha]; rfl)

lemma pmax_eq_none (Q : List (Option ℚ)) (h : validVals Q = []) :
    pmax Q = none := by
  have hQ : pmax Q = match validVals Q with
    | [] => none
    | x :: xs => some (xs.foldl max x) := rfl
  rw [hQ, h]

lemma pmean_all_missing (Q : List (Option ℚ)) (h : ∀ x ∈ Q, x = none) :
    pmean Q = none := by
  simp [pmean, validVals_eq_nil Q h]

lemma coeffVarCol_all_missing (Q : List (Option ℚ)) (h : ∀ x ∈ Q, x = none) :
    coeffVarCol Q = none := by
  have hvv := validVals_eq_nil Q h
  have hpvar : pvar Q = none := by simp [pvar, hvv]
  have hpmean : pmean Q = none := by simp [pmean, hvv]
  rw [coeffVarCol, pstd, hpvar, hpmean]
  rfl

lemma calcRBindex_all_missing (Q : List (Option ℚ)) (h : ∀ x ∈ Q, x = none) :
    CalcRBindex Q = none := by
  simp [CalcRBindex, psum, validVals_eq_nil Q h]

lemma calcTqmean_all_missing (Q : List (Option ℚ)) (hlen : ¬ Q.length = 0)
    (h : ∀ x ∈ Q, x = none) : CalcTqmean Q = some 0 := by
  have hfilt : Q.filter (fun x => match x, pmean Q with
      | some a, some b => decide (b < a)
      | _, _ => false) = [] := by
    apply List.filter_eq_nil_iff.mpr
    intro a ha
    rw [h a ha]
    simp
  simp only [CalcTqmean, hfilt, List.length_nil, hlen, if_false, Nat.cast_zero,
    zero_div]

lemma moMin_le_monthNum (d0 : Date) (rest : List Date) :
    ∀ d ∈ d0 :: rest, moMin rest d0 ≤ monthNum d := by
  intro d hd
  rcases List.mem_cons.mp hd with rfl | hd
  · exact foldl_min_le_init _ _
  · exact foldl_min_le_all _ _ _ (List.mem_map_of_mem monthNum hd)

lemma monthNum_le_moMax (d0 : Date) (rest : List Date) :
    ∀ d ∈ d0 :: rest, monthNum d ≤ moMax rest d0 := by
  intro d hd
  rcases List.mem_cons.mp hd with rfl | hd
  · exact init_le_foldl_max _ _
  · exact all_le_foldl_max _ _ _ (List.mem_map_of_mem monthNum hd)

lemma monthLabel_mem_monthlyIndex (dates : List Date) (d : Date)
    (hd : d ∈ dates) : monthLabel (monthNum d) ∈ monthlyIndex dates := by
  cases dates with
  | nil => simp at hd
  | cons d0 rest =>
    have h1 := moMin_le_monthNum d0 rest d hd
    have h2 := monthNum_le_moMax d0 rest d hd
    show monthLabel (monthNum d) ∈
      (List.range (moMax rest d0 - moMin rest d0 + 1).toNat).map
        (fun (k : Nat) => monthLabel (moMin rest d0 + (k : Int)))
    refine List.mem_map.mpr ⟨(monthNum d - moMin rest d0).toNat,
      List.mem_range.mpr (by omega), ?_⟩
    congr 1
    omega

lemma monthLabel_monthNum (d : Date) (hv : d.Valid) :
    monthLabel (monthNum d) = ⟨d.year, d.month, 1⟩ := by
  obtain ⟨h1, h2, -, -⟩ := hv
  simp only [monthLabel, monthNum, Date.mk.injEq]
  refine ⟨by omega, by omega, trivial⟩

lemma getMonthlyStatistics_labels (df : List Row) :
    (GetMonthlyStatistics df).map Prod.fst = monthlyIndex (df.map Row.date) := by
  rw [GetMonthlyStatistics, List.map_map]
  exact List.map_id _

/-- C2, counterexample: a bucket holding one row whose discharge is
missing.  Its `Tqmean` column is `0` (count `0` over length `1`) and
its `3xMedian` column is the count `0` — defined values, not NaN —
refuting "every metric column of an all-missing bucket is NaN". -/
theorem all_missing_bucket_counterexample :
    (annualRowOf [⟨⟨2000, 1, 1⟩, "USGS", 3, none, "A"⟩]).tqmean = some 0 ∧
    (annualRowOf [⟨⟨2000, 1, 1⟩, "USGS", 3, none, "A"⟩]).exceed3xMedian = 0 := by
  constructor
  · show CalcTqmean [none] = some 0
    have hm : pmean [none] = none := rfl
    simp [CalcTqmean, hm]
  · show CalcExceed3TimesMedian [none] = 0
    rfl

/-- C2, amended: for an aggregation bucket (water year or month) that
holds observations but whose discharge values are all missing, every
NaN-propagating metric column is NaN — annual: Mean/Peak/Median Flow,
Coeff Var, Skew, R-B Index, 7Q; monthly: Mean Flow, Coeff Var,
R-B Index — while the `Tqmean` column is the defined value `0` in both
tables and the annual `3xMedian` column the defined count `0` (no
comparison against a NaN mean or median ever succeeds, and the counts
are divided by, or stand on, the full bucket length); the bucket still
appears as a labelled row of the annual output for the water year of
any of its dates, and of the monthly output for the month of any of
its dates. -/
theorem all_missing_bucket_row (rows : List Row) (hne : rows ≠ [])
    (hmiss : ∀ r ∈ rows, r.discharge = none) :
    (annualRowOf rows).meanFlow = none ∧
    (annualRowOf rows).peakFlow = none ∧
    (annualRowOf rows).medianFlow = none ∧
    (annualRowOf rows).coeffVar = none ∧
    (annualRowOf rows).skew = none ∧
    (annualRowOf rows).rbIndex = none ∧
    (annualRowOf rows).sevenQ = none ∧
    (annualRowOf rows).tqmean = some 0 ∧
    (annualRowOf rows).exceed3xMedian = 0 ∧
    (∀ (df : List Row) (r : Row), r ∈ df →
      (⟨waterYear r.date, 9, 30⟩ : Date) ∈
        (GetAnnualStatistics df).map Prod.fst) ∧
    (∀ (df : List Row) (k : Int × Nat),
      df.filter (fun r => monthKey r.date = k) ≠ [] →
      (∀ r ∈ df.filter (fun r => monthKey r.date = k), r.discharge = none) →
      (monthlyRowOf df k).meanFlow = none ∧
      (monthlyRowOf df k).coeffVar = none ∧
      (monthlyRowOf df k).rbIndex = none ∧
      (monthlyRowOf df k).tqmean = some 0) ∧
    (∀ (df : List Row) (r : Row), r ∈ df → r.date.Valid →
      (⟨r.date.year, r.date.month, 1⟩ : Date) ∈
        (GetMonthlyStatistics df).map Prod.fst) := by
  have hQall : ∀ x ∈ rows.map Row.discharge, x = none := by
    intro x hx
    obtain ⟨r, hr, rfl⟩ := List.mem_map.mp hx
    exact hmiss r hr
  have hvv : validVals (rows.map Row.discharge) = [] := validVals_eq_nil _ hQall
  have hlen : ¬ (rows.map Row.discharge).length = 0 := by
    simp only [List.length_map]
    exact fun h => hne (List.length_eq_zero.mp h)
  have hpmean : pmean (rows.map Row.discharge) = none := by
    simp [pmean, hvv]
  have hpvar : pvar (rows.map Row.discharge) = none := by
    simp [pvar, hvv]
  refine ⟨hpmean, pmax_eq_none _ hvv, ?_, ?_, ?_, ?_, ?_, ?_, ?_, ?_, ?_, ?_⟩
  · show pmedian (rows.map Row.discharge) = none
    simp [pmedian, hvv]
  · show coeffVarCol (rows.map Row.discharge) = none
    rw [coeffVarCol, pstd, hpvar, hpmean]
    rfl
  · show pskew (rows.map Row.discharge) = none
    simp [pskew, hvv]
  · show CalcRBindex (rows.map Row.discharge) = none
    simp [CalcRBindex, psum, hvv]
  · show Calc7Q (rows.map Row.discharge) = none
    apply pmin_eq_none
    apply List.filterMap_eq_nil_iff.mpr
    intro x hx
    obtain ⟨i, hi, rfl⟩ := List.mem_map.mp hx
    by_cases h6 : 6 ≤ i
    · have hw : (((rows.map Row.discharge).drop (i - 6)).take 7).filterMap id = [] :=
        List.filterMap_eq_nil_iff.mpr (fun a ha => by
          rw [hQall a (List.mem_of_mem_drop (List.mem_of_mem_take ha))]; rfl)
      show id (if 6 ≤ i then
          if ((((rows.map Row.discharge).drop (i - 6)).take 7).filterMap id).length = 7 then
            some (((((rows.map Row.discharge).drop (i - 6)).take 7).filterMap id).sum / 7)
          else none
        else none) = none
      rw [id_eq, if_pos h6, hw]
      simp
    · show id (if 6 ≤ i then
          if ((((rows.map Row.discharge).drop (i - 6)).take 7).filterMap id).length = 7 then
            some (((((rows.map Row.discharge).drop (i - 6)).take 7).filterMap id).sum / 7)
          else none
        else none) = none
      rw [id_eq, if_neg h6]
  · show CalcTqmean (rows.map Row.discharge) = some 0
    have hfilt : (rows.map Row.discharge).filter
        (fun x => match x, pmean (rows.map Row.discharge) with
          | some a, some b => decide (b < a)
          | _, _ => false) = [] := by
      apply List.filter_eq_nil_iff.mpr
      intro a ha
      rw [hQall a ha]
      simp
    simp only [CalcTqmean, hfilt, List.length_nil, hlen, if_false,
      Nat.cast_zero, zero_div]
  · show CalcExceed3TimesMedian (rows.map Row.discharge) = 0
    have hfilt : (rows.map Row.discharge).filter
        (fun x => match x, pmedian (rows.map Row.discharge) with
          | some a, some b => decide (3 * b < a)
          | _, _ => false) = [] := by
      apply List.filter_eq_nil_iff.mpr
      intro a ha
      rw [hQall a ha]
      simp
    simp only [CalcExceed3TimesMedian, hfilt, List.length_nil]
  · intro df r hr
    rw [getAnnualStatistics_labels]
    exact waterYear_label_mem_annualIndex (df.map Row.date) r.date
      (List.mem_map_of_mem Row.date hr)
  · intro df k hbne hbmiss
    have hQall' : ∀ x ∈ (df.filter (fun r => monthKey r.date = k)).map Row.discharge,
        x = none := by
      intro x hx
      obtain ⟨r, hr, rfl⟩ := List.mem_map.mp hx
      exact hbmiss r hr
    refine ⟨pmean_all_missing _ hQall', coeffVarCol_all_missing _ hQall', ?_, ?_⟩
    · show CalcRBindex ((df.filter (fun r => monthKey r.date = k)).map Row.discharge) = none
      exact calcRBindex_all_missing _ hQall'
    · show CalcTqmean ((df.filter (fun r => monthKey r.date = k)).map Row.discharge) = some 0
      refine calcTqmean_all_missing _ ?_ hQall'
      simp only [List.length_map]
      exact fun hc => hbne (List.length_eq_zero.mp hc)
  · intro df r hr hv
    rw [getMonthlyStatistics_labels]
    have hmem := monthLabel_mem_monthlyIndex (df.map Row.date) r.date
      (List.mem_map_of_mem Row.date hr)
    rwa [monthLabel_monthNum r.date hv] at hmem

/-- C2 witness: the one-row all-missing bucket evaluated concretely,
its row present for water year 2000 in the annual table, its monthly
metric columns evaluated for the January 2000 bucket, and its row
present for January 2000 in the monthly table. -/
theorem all_missing_bucket_row_witness :
    (annualRowOf [⟨⟨2000, 1, 1⟩, "USGS", 3, none, "A"⟩]).meanFlow = none ∧
    (annualRowOf [⟨⟨2000, 1, 1⟩, "USGS", 3, none, "A"⟩]).peakFlow = none ∧
    (annualRowOf [⟨⟨2000, 1, 1⟩, "USGS", 3, none, "A"⟩]).medianFlow = none ∧
    (annualRowOf [⟨⟨2000, 1, 1⟩, "USGS", 3, none, "A"⟩]).coeffVar = none ∧
    (annualRowOf [⟨⟨2000, 1, 1⟩, "USGS", 3, none, "A"⟩]).skew = none ∧
    (annualRowOf [⟨⟨2000, 1, 1⟩, "USGS", 3, none, "A"⟩]).rbIndex = none ∧
    (annualRowOf [⟨⟨2000, 1, 1⟩, "USGS", 3, none, "A"⟩]).sevenQ = none ∧
    (annualRowOf [⟨⟨2000, 1, 1⟩, "USGS", 3, none, "A"⟩]).tqmean = some 0 ∧
    (annualRowOf [⟨⟨2000, 1, 1⟩, "USGS", 3, none, "A"⟩]).exceed3xMedian = 0 ∧
    (⟨2000, 9, 30⟩ : Date) ∈
      (GetAnnualStatistics [⟨⟨2000, 1, 1⟩, "USGS", 3, none, "A"⟩]).map Prod.fst ∧
    (monthlyRowOf [⟨⟨2000, 1, 1⟩, "USGS", 3, none, "A"⟩] (2000, 1)).meanFlow = none ∧
    (monthlyRowOf [⟨⟨2000, 1, 1⟩, "USGS", 3, none, "A"⟩] (2000, 1)).coeffVar = none ∧
    (monthlyRowOf [⟨⟨2000, 1, 1⟩, "USGS", 3, none, "A"⟩] (2000, 1)).rbIndex = none ∧
    (monthlyRowOf [⟨⟨2000, 1, 1⟩, "USGS", 3, none, "A"⟩] (2000, 1)).tqmean = some 0 ∧
    (⟨2000, 1, 1⟩ : Date) ∈
      (GetMonthlyStatistics [⟨⟨2000, 1, 1⟩, "USGS", 3, none, "A"⟩]).map Prod.fst := by
  have h := all_missing_bucket_row [⟨⟨2000, 1, 1⟩, "USGS", 3, none, "A"⟩]
    (by simp)
    (by
      intro r hr
      rcases List.mem_cons.mp hr with rfl | hr
      · rfl
      · simp at hr)
  have hmo := h.2.2.2.2.2.2.2.2.2.2.1 [⟨⟨2000, 1, 1⟩, "USGS", 3, none, "A"⟩] (2000, 1)
    (by decide)
    (by
      intro r hr
      rcases List.mem_cons.mp hr with rfl | hr
      · rfl
      · simp at hr)
  exact ⟨h.1, h.2.1, h.2.2.1, h.2.2.2.1, h.2.2.2.2.1, h.2.2.2.2.2.1,
    h.2.2.2.2.2.2.1, h.2.2.2.2.2.2.2.1, h.2.2.2.2.2.2.2.2.1,
    h.2.2.2.2.2.2.2.2.2.1 [⟨⟨2000, 1, 1⟩, "USGS", 3, none, "A"⟩]
      ⟨⟨2000, 1, 1⟩, "USGS", 3, none, "A"⟩ (List.mem_cons_self _ _),
    hmo.1, hmo.2.1, hmo.2.2.1, hmo.2.2.2,
    h.2.2.2.2.2.2.2.2.2.2.2 [⟨⟨2000, 1, 1⟩, "USGS", 3, none, "A"⟩]
      ⟨⟨2000, 1, 1⟩, "USGS", 3, none, "A"⟩ (List.mem_cons_self _ _) (by decide)⟩
